import Mathlib

/-
  Verification development for the venture-sourcing scripts repository.

  The definitions below are shallow embeddings of the Python functions in
  src/: pure string manipulation is modelled over `List Char` with Python's
  ASCII semantics, HTTP clients are modelled as pure functions over the
  sequence of responses the server would return, and JSON records are
  modelled as Lean structures whose fields reflect the `dict.get` accesses
  performed by the code (an absent string field is modelled as "", matching
  the pervasive `x.get(k) or ""` idiom).
-/

set_option maxRecDepth 8000

namespace Outsourcing

/-! ### Python string primitives

Models of the Python string operations used by `normalize_name`:
`str.lower`, `str.strip`, and the regular expression substitutions.
All inputs of interest are ASCII, so `lower` is modelled on the ASCII
range only. -/

/-- Python whitespace (`\s` and `str.strip`) over ASCII:
space, tab, newline, carriage return, vertical tab, form feed. -/
def pyIsSpace (c : Char) : Bool :=
  c == ' ' || c == '\t' || c == '\n' || c == '\r' ||
  c == Char.ofNat 11 || c == Char.ofNat 12

/-- Python `str.lower` on one ASCII character. -/
def pyLowerChar (c : Char) : Char :=
  if 'A' ≤ c ∧ c ≤ 'Z' then Char.ofNat (c.toNat + 32) else c

/-- Python `str.lower`. -/
def pyLower (l : List Char) : List Char := l.map pyLowerChar

/-- Drop trailing whitespace (the right half of Python `str.strip`). -/
def dropTrailingWs (l : List Char) : List Char :=
  ((l.reverse).dropWhile pyIsSpace).reverse

/-- Python `str.strip`: remove leading and trailing whitespace. -/
def pyStrip (l : List Char) : List Char :=
  dropTrailingWs (l.dropWhile pyIsSpace)

/-- Characters kept by `re.sub(r'[^a-z0-9\s]', '', name)`. -/
def allowedChar (c : Char) : Bool :=
  decide ('a' ≤ c ∧ c ≤ 'z') || decide ('0' ≤ c ∧ c ≤ '9') || pyIsSpace c

/-- The substitution `re.sub(r'[^a-z0-9\s]', '', name)`. -/
def keepAllowed (l : List Char) : List Char := l.filter allowedChar

/-- Worker for `re.sub(r'\s+', ' ', name)`: `inRun` records whether the
previous character was part of a whitespace run already replaced by a
single space. -/
def collapseWsAux : Bool → List Char → List Char
  | _, [] => []
  | inRun, c :: rest =>
    if pyIsSpace c then
      if inRun then collapseWsAux true rest
      else ' ' :: collapseWsAux true rest
    else c :: collapseWsAux false rest

/-- The substitution `re.sub(r'\s+', ' ', name)`. -/
def collapseWs (l : List Char) : List Char := collapseWsAux false l

/-- Match a (reversed) token literally against the front of a reversed
string, returning the remainder on success. -/
def matchRev : List Char → List Char → Option (List Char)
  | [], r => some r
  | _ :: _, [] => none
  | t :: ts, c :: r => if c = t then matchRev ts r else none

/-- Try each token (given reversed) in order against a reversed string. -/
def tryTokensRev : List (List Char) → List Char → Option (List Char)
  | [], _ => none
  | t :: ts, r =>
    match matchRev t r with
    | some rest => some rest
    | none => tryTokensRev ts r

/-- After the token matched, the regex requires `\s+` before it:
at least one whitespace character, and leftmost matching consumes the
whole whitespace run. -/
def dropWsRun (r : List Char) : Option (List Char) :=
  match r with
  | c :: rest => if pyIsSpace c then some (rest.dropWhile pyIsSpace) else none
  | [] => none

/-- One application of `re.sub(r'\s+(tok1|tok2|...)\.?$', '', s)` for a
given token list: working on the reversed string, drop an optional final
dot, match one token, then require and drop the preceding whitespace run.
The pattern is anchored at `$`, so it matches at most once. -/
def stripSuffixTokens (toks : List (List Char)) (l : List Char) : List Char :=
  let r := l.reverse
  let r1 := match r with
    | '.' :: rest => rest
    | _ => r
  match tryTokensRev toks r1 with
  | some afterTok =>
    match dropWsRun afterTok with
    | some pre => pre.reverse
    | none => l
  | none => l

/-- Legal-entity suffix tokens of `normalize_name` in find_top_startups.py,
find_raising_startups.py and add_to_affinity.py (reversed for matching):
`inc|llc|ltd|corp|co|company`. -/
def legalTokensRev : List (List Char) :=
  [['c','n','i'], ['c','l','l'], ['d','t','l'],
   ['p','r','o','c'], ['o','c'], ['y','n','a','p','m','o','c']]

/-- Suffix-strip step of the shared `normalize_name`. -/
def stripLegalSuffix (l : List Char) : List Char :=
  stripSuffixTokens legalTokensRev l

/-- The normalization pipeline after the emptiness test, over `List Char`. -/
def normalizeChars (l : List Char) : List Char :=
  pyStrip (collapseWs (keepAllowed (stripLegalSuffix (pyStrip (pyLower l)))))

/-- `normalize_name` as defined (identically) in find_top_startups.py,
find_raising_startups.py and add_to_affinity.py:
lower-case and strip, remove one trailing legal-entity suffix
(`\s+(inc|llc|ltd|corp|co|company)\.?$`), remove characters outside
`[a-z0-9\s]`, collapse whitespace runs to single spaces and strip. -/
def normalize_name (s : String) : String :=
  if s = "" then "" else String.mk (normalizeChars s.data)

/-- Extra tokens of the push_and_check.py variant of `normalize_name`:
`inc|llc|ltd|corp|co|company|inc\.|llc\.|ltd\.` (in source order). -/
def pcTokensRev : List (List Char) :=
  [['c','n','i'], ['c','l','l'], ['d','t','l'],
   ['p','r','o','c'], ['o','c'], ['y','n','a','p','m','o','c'],
   ['.','c','n','i'], ['.','c','l','l'], ['.','d','t','l']]

/-- `normalize_name` as defined in push_and_check.py (same pipeline, but
the suffix alternation also lists the dotted forms `inc.|llc.|ltd.`). -/
def pc_normalize_name (s : String) : String :=
  if s = "" then ""
  else String.mk
    (pyStrip (collapseWs (keepAllowed
      (stripSuffixTokens pcTokensRev (pyStrip (pyLower s.data))))))

/-- Does `hay` start with `needle`? -/
def startsWithChars : List Char → List Char → Bool
  | [], _ => true
  | _ :: _, [] => false
  | c :: cs, d :: ds => c == d && startsWithChars cs ds

/-- Does `needle` occur contiguously inside `hay`? -/
def occursIn (needle : List Char) : List Char → Bool
  | [] => needle.isEmpty
  | hay@(_ :: rest) => startsWithChars needle hay || occursIn needle rest

/-- Python substring test `needle in hay`. -/
def pyIn (needle hay : String) : Bool := occursIn needle.data hay.data

/-! ### Organization records and the entity resolver

An Affinity organization as consumed by the scripts: only `id`, `name`
and `domain` are read.  `org.get("name") or ""` / `org.get("domain") or ""`
are modelled by plain strings, with "" standing for an absent field. -/

structure Org where
  id : Int
  name : String
  domain : String
deriving DecidableEq

/-- The comparison `(org.get("domain") or "").lower().strip() == domain.lower()`
from `search_org`. -/
def domainMatches (domain : String) (org : Org) : Bool :=
  String.mk (pyStrip (pyLower org.domain.data)) == String.mk (pyLower domain.data)

/-- The name branch of `search_org`: fuzzy-search on the name and accept
the first result whose normalized name equals the normalized query.
`fetch q` models `self._get("/organizations", {"term": q, "page_size": 5})`
followed by the `organizations` extraction: `none` stands for a failed or
falsy response, which makes the loop body unreachable just as an empty
result list does. -/
def namePathResult (fetch : String → Option (List Org)) (name : String) :
    Option Org :=
  if name = "" then none
  else ((fetch name).getD []).find?
    (fun org => normalize_name org.name == normalize_name name)

/-- Query terms issued by the name branch (empty when `if name:` is falsy). -/
def namePathQueries (name : String) : List String :=
  if name = "" then [] else [name]

/-- `AffinityClient.search_org(name, domain=None)` as defined (identically)
in find_top_startups.py and find_raising_startups.py, together with the
list of query terms it sends to the fuzzy-search endpoint.  If a truthy
domain is given, it first searches by domain and returns the first result
whose lower-cased, stripped domain equals the lower-cased input domain;
otherwise (or when that finds nothing) it searches by name and returns
the first result with an exactly matching normalized name; else `None`. -/
def search_org (fetch : String → Option (List Org)) (name : String)
    (domain : Option String) : Option Org × List String :=
  match domain with
  | some d =>
    if d = "" then (namePathResult fetch name, namePathQueries name)
    else
      match ((fetch d).getD []).find? (domainMatches d) with
      | some org => (some org, [d])
      | none => (namePathResult fetch name, d :: namePathQueries name)
  | none => (namePathResult fetch name, namePathQueries name)

/-- `AffinityClient.search_org_by_name` from push_and_check.py.  Its `_get`
returns `{}` on failure, so the extracted result list is modelled directly
as `fetch name` (failure giving `[]`, on which `if not orgs: return None`
and the empty loop agree). -/
def search_org_by_name (fetch : String → List Org) (name : String) :
    Option Org :=
  if name = "" then none
  else (fetch name).find?
    (fun org => pc_normalize_name org.name == pc_normalize_name name)

/-! ### Rate-limited HTTP client

A response is modelled by its status code, the integer value of its
`Retry-After` header when present, and its decoded body.  A client call is
modelled against the finite sequence of responses the server returns to
the successive (identical) requests; the result records the value
returned, the seconds slept, and the requests issued. -/

structure HttpResp (α : Type) where
  status : Nat
  retryAfter : Option Int
  body : α

/-- `AffinityClient._get` as defined (identically) in find_top_startups.py
and find_raising_startups.py, and `affinity_get` from add_to_affinity.py:
on 429 sleep for `Retry-After` (default 5) and recurse with the same
endpoint and params; on any other non-200 return `None`; otherwise return
the body.  An exhausted response list yields `(none, [], [])`: the Python
recursion would simply await further responses, so theorems only constrain
the consumed prefix. -/
def affinity_get (endpoint : String) (params : List (String × String)) :
    List (HttpResp α) → Option α × List Int × List (String × List (String × String))
  | [] => (none, [], [])
  | r :: rest =>
    if r.status = 429 then
      let w := r.retryAfter.getD 5
      let out := affinity_get endpoint params rest
      (out.1, w :: out.2.1, (endpoint, params) :: out.2.2)
    else if r.status = 200 then (some r.body, [], [(endpoint, params)])
    else (none, [], [(endpoint, params)])

/-- Loop body of `affinity_get` from find_raising_later.py: at most five
attempts; on 429 sleep for `Retry-After` (default 2) and continue;
on any other non-200 return `None`; after five 429s return `None`. -/
def rl_affinity_go (endpoint : String) (params : List (String × String)) :
    Nat → List (HttpResp α) →
    Option α × List Int × List (String × List (String × String))
  | 0, _ => (none, [], [])
  | _ + 1, [] => (none, [], [])
  | n + 1, r :: rest =>
    if r.status = 429 then
      let w := r.retryAfter.getD 2
      let out := rl_affinity_go endpoint params n rest
      (out.1, w :: out.2.1, (endpoint, params) :: out.2.2)
    else if r.status = 200 then (some r.body, [], [(endpoint, params)])
    else (none, [], [(endpoint, params)])

/-- `affinity_get` from find_raising_later.py (`for attempt in range(5)`). -/
def rl_affinity_get (endpoint : String) (params : List (String × String))
    (resps : List (HttpResp α)) :
    Option α × List Int × List (String × List (String × String)) :=
  rl_affinity_go endpoint params 5 resps

/-! ### Interaction / relationship check -/

/-- A CRM list entry as read by `has_any_interaction`: only `list_id`. -/
structure ListEntry where
  list_id : Int
deriving DecidableEq

/-- A note record; only the count of notes is consumed. -/
structure Note where
  id : Int
deriving DecidableEq

/-- `AffinityClient.has_any_interaction(org_id)` as defined (identically)
in find_top_startups.py and find_raising_startups.py.  `orgDetail` is the
organization-detail response (`none` for a failed or falsy `_get`),
reduced to its `list_entries`; `notes` is the notes response (`none` for a
failed or falsy `_get`), reduced to its note list. -/
def has_any_interaction (targetListId : Int)
    (orgDetail : Option (List ListEntry)) (notes : Option (List Note)) :
    Bool × String :=
  match orgDetail with
  | none => (false, "")
  | some list_entries =>
    if list_entries.any (fun e => e.list_id == targetListId) then
      (true, "On 1a Sourcing List")
    else
      let fromNotes : Option (Bool × String) :=
        match notes with
        | some note_list =>
          if note_list.isEmpty then none
          else some (true, toString note_list.length ++ " notes")
        | none => none
      match fromNotes with
      | some out => out
      | none =>
        if list_entries.isEmpty then (false, "")
        else (true, "On other Affinity list")

/-! ### Highlights -/

/-- A highlight record: `h.get("category") or ""`. -/
structure Highlight where
  category : String
deriving DecidableEq

/-! ### Scoring factors shared by both raise-score functions

Each hiring/traffic factor in the Python scorers has the form
`if v and v > 0: score += min(v * mul, cap)` (or `min(v / den, cap)`);
for numbers, `v and v > 0` is equivalent to `v is not None and v > 0`. -/

/-- `if v and v > 0: min(v * mul, cap) else 0`. -/
def positiveCappedMul (mul cap : ℚ) : Option ℚ → ℚ
  | some x => if 0 < x then min (x * mul) cap else 0
  | none => 0

/-- `if v and v > 0: min(v / den, cap) else 0`. -/
def positiveCappedDiv (den cap : ℚ) : Option ℚ → ℚ
  | some x => if 0 < x then min (x / den) cap else 0
  | none => 0

namespace FindTop

/-! ### find_top_startups.py: founder and raise scoring -/

/-- The `ELITE_COMPANIES` set of find_top_startups.py. -/
def ELITE_COMPANIES : List String :=
  ["google", "meta", "facebook", "apple", "amazon", "microsoft", "netflix",
   "stripe", "brex", "twitch", "airbnb", "uber", "lyft", "doordash",
   "coinbase", "robinhood", "plaid", "figma", "notion", "slack", "discord",
   "snowflake", "databricks", "datadog", "palantir", "salesforce",
   "twitter", "x", "linkedin", "snap", "pinterest", "spotify",
   "openai", "anthropic", "deepmind", "tesla", "spacex",
   "square", "block", "shopify", "instacart", "dropbox",
   "nvidia", "intel", "amd", "oracle", "ibm", "cisco",
   "mckinsey", "bain", "bcg", "goldman sachs", "morgan stanley",
   "jp morgan", "jpmorgan", "a16z", "andreessen", "sequoia",
   "benchmark", "accel", "greylock", "kleiner", "y combinator", "yc"]

/-- The `ELITE_SCHOOLS` set of find_top_startups.py. -/
def ELITE_SCHOOLS : List String :=
  ["stanford", "mit", "harvard", "yale", "princeton", "caltech",
   "carnegie mellon", "berkeley", "columbia", "cornell", "upenn",
   "wharton", "booth", "kellogg", "sloan", "haas",
   "oxford", "cambridge", "iit"]

/-- One entry of `person["experience"]`: `exp.get("company_name") or ""`
and `exp.get("title") or ""`. -/
structure ExperienceItem where
  company_name : String
  title : String
deriving DecidableEq

/-- One entry of `person["education"]`:
`(edu.get("school") or {}).get("name") or ""`. -/
structure EducationItem where
  school_name : String
deriving DecidableEq

/-- The fields of a Harmonic person record read by `compute_founder_score`. -/
structure Person where
  experience : List ExperienceItem
  education : List EducationItem
  highlights : List Highlight
deriving DecidableEq

/-- Senior-role keywords of the experience bonus. -/
def seniorTitleWords : List String :=
  ["cto", "vp", "director", "head of", "chief", "principal", "staff", "lead"]

/-- Mid-level keywords of the experience bonus. -/
def midTitleWords : List String := ["senior", "manager"]

/-- The experience loop of `compute_founder_score`: if some elite company
name occurs in the lower-cased, stripped `company_name` and that company
string was not yet seen, add 15 plus a title bonus and record it; the
chosen elite string affects nothing, so the unordered set iteration of the
source is modelled by existence over the list. -/
def expScore : List ExperienceItem → List String → Int
  | [], _ => 0
  | exp :: rest, seen =>
    let co := String.mk (pyStrip (pyLower exp.company_name.data))
    let title := String.mk (pyLower exp.title.data)
    if (ELITE_COMPANIES.any (fun e => pyIn e co)) && !(seen.contains co) then
      let bonus : Int :=
        if seniorTitleWords.any (fun w => pyIn w title) then 10
        else if midTitleWords.any (fun w => pyIn w title) then 5
        else 0
      15 + bonus + expScore rest (co :: seen)
    else expScore rest seen

/-- The education loop: +10 per education record whose lower-cased school
name contains an elite school string (no deduplication). -/
def eduRecScore (e : EducationItem) : Int :=
  if ELITE_SCHOOLS.any (fun s => pyIn s (String.mk (pyLower e.school_name.data)))
  then 10 else 0

/-- The person-highlight loop body of `compute_founder_score`
(find_top_startups.py): fixed points per lower-cased category keyword,
with no deduplication across highlight records. -/
def personHighlightScore (h : Highlight) : Int :=
  let cat := String.mk (pyLower h.category.data)
  if pyIn "prior_exit" cat || pyIn "prior exit" cat then 20
  else if pyIn "top_university" cat || pyIn "top university" cat then 5
  else if pyIn "major_tech" cat || pyIn "faang" cat then 10
  else if pyIn "serial_founder" cat || pyIn "serial founder" cat then 15
  else 0

/-- `compute_founder_score(person)` from find_top_startups.py
(`if not person: return 0` is the `none` case). -/
def compute_founder_score : Option Person → Int
  | none => 0
  | some p =>
    expScore p.experience [] +
    (p.education.map eduRecScore).sum +
    (p.highlights.map personHighlightScore).sum

/-- The fields of a Harmonic company record read by `compute_raise_score`,
with nested `dict.get` chains resolved: optional traction metrics, the
highlight list, days since the parsed `stealth_emergence_date` (when
present and parseable), `funding.funding_total or 0`, the resolved
headcount (`headcount or corrected_headcount.latest_metric_value or 1`),
and the year parsed from `founding_date.date` (when parseable). -/
structure Company where
  hc_change_180 : Option ℚ
  hc_change_90 : Option ℚ
  wt_pct_180 : Option ℚ
  li_pct_180 : Option ℚ
  highlights : List Highlight
  emergence_days_ago : Option Int
  funding_total : ℚ
  headcount : ℚ
  founding_year : Option Int

/-- Stealth-emergence recency bonus of `compute_raise_score`. -/
def emergenceFactor : Option Int → ℚ
  | some d => if d < 90 then 20 else if d < 180 then 15 else if d < 365 then 10 else 0
  | none => 0

/-- Low-funding-relative-to-headcount bonus of `compute_raise_score`. -/
def fundingNeedFactor (funding_total headcount : ℚ) : ℚ :=
  (if 3 < headcount ∧ funding_total < 2000000 then 10 else 0) +
  (if funding_total = 0 ∧ 2 < headcount then 15 else 0)

/-- Founding-year recency bonus (`if year and year >= 2024 ... >= 2023`;
`year and ...` agrees with the plain comparisons since `0 >= 2023` fails). -/
def foundingYearFactor : Option Int → ℚ
  | some y => if 2024 ≤ y then 10 else if 2023 ≤ y then 5 else 0
  | none => 0

/-- Check-size sweet-spot bonus of `compute_raise_score`. -/
def sweetSpotFactor (funding_total headcount : ℚ) : ℚ :=
  if 1000000 ≤ funding_total ∧ funding_total ≤ 5000000 ∧ 5 < headcount then 15
  else if funding_total < 1000000 ∧ 3 < headcount then 10
  else 0

/-- `compute_raise_score(company)` from find_top_startups.py, as the sum
of its sequential `score +=` blocks. -/
def compute_raise_score (c : Company) : ℚ :=
  positiveCappedMul 5 25 c.hc_change_180 +
  positiveCappedMul 8 25 c.hc_change_90 +
  positiveCappedDiv 10 20 c.wt_pct_180 +
  positiveCappedDiv 5 15 c.li_pct_180 +
  min ((c.highlights.length : ℚ) * 3) 15 +
  emergenceFactor c.emergence_days_ago +
  fundingNeedFactor c.funding_total c.headcount +
  foundingYearFactor c.founding_year +
  sweetSpotFactor c.funding_total c.headcount

end FindTop

namespace FindRaising

/-! ### find_raising_startups.py: founder and raising scoring -/

/-- The `FOUNDER_HIGHLIGHT_SCORES` weight table. -/
def FOUNDER_HIGHLIGHT_SCORES : List (String × Int) :=
  [("Prior Exit", 25),
   ("Prior VC Backed Founder", 20),
   ("YC Backed Founder", 20),
   ("Seasoned Founder", 18),
   ("Top University", 12),
   ("Top Company Alum", 10),
   ("Major Tech Company Experience", 8),
   ("Deep Technical Background", 10),
   ("Top AI Experience", 12),
   ("Elite Industry Experience", 8),
   ("Major Research Institution Experience", 8),
   ("Seasoned Executive", 8),
   ("Seasoned Operator", 6),
   ("$50M+ Club", 20),
   ("$45M Club", 18),
   ("$40M Club", 16),
   ("$35M Club", 14),
   ("$20M Club", 12),
   ("$15M Club", 10),
   ("$10M Club", 8),
   ("$5M Club", 5)]

/-- `FOUNDER_HIGHLIGHT_SCORES.get(category, 0)`. -/
def highlightWeight (category : String) : Int :=
  match FOUNDER_HIGHLIGHT_SCORES.find? (fun p => p.1 == category) with
  | some p => p.2
  | none => 0

/-- The fields of a company record read by `compute_raising_score` and
`compute_founder_score` in find_raising_startups.py (same resolution of
nested `dict.get` chains as in `FindTop.Company`; the founding year here
comes directly from `founding_date.get("year")`). -/
structure Company where
  hc_change_90 : Option ℚ
  hc_change_180 : Option ℚ
  wt_pct_180 : Option ℚ
  li_pct_180 : Option ℚ
  emergence_days_ago : Option Int
  funding_total : ℚ
  headcount : ℚ
  employee_highlights : List Highlight
  highlights : List Highlight
  founding_year : Option Int

/-- Stealth-emergence recency bonus of `compute_raising_score`. -/
def emergenceFactor : Option Int → ℚ
  | some d =>
    if d < 60 then 25 else if d < 120 then 20
    else if d < 180 then 15 else if d < 365 then 8 else 0
  | none => 0

/-- Low-funding-relative-to-headcount bonus of `compute_raising_score`. -/
def fundingNeedFactor (funding_total headcount : ℚ) : ℚ :=
  (if 3 < headcount ∧ funding_total < 2000000 then 12 else 0) +
  (if funding_total = 0 ∧ 2 < headcount then 15 else 0)

/-- `compute_raising_score(company)` from find_raising_startups.py, as the
sum of its sequential `score +=` blocks. -/
def compute_raising_score (c : Company) : ℚ :=
  positiveCappedMul 8 25 c.hc_change_90 +
  positiveCappedMul 4 15 c.hc_change_180 +
  positiveCappedDiv 10 20 c.wt_pct_180 +
  positiveCappedDiv 5 15 c.li_pct_180 +
  emergenceFactor c.emergence_days_ago +
  fundingNeedFactor c.funding_total c.headcount +
  min ((c.highlights.length : ℚ) * 2) 10 +
  FindTop.foundingYearFactor c.founding_year

/-- The highlight loop of `compute_founder_score`
(find_raising_startups.py): iterate over
`employee_highlights + highlights`, skip categories already seen, and add
the table weight when it is positive, recording the category.  The source
returns `list(seen_categories)` of a Python set, whose order is
unspecified; insertion order is used here and only the score component is
relied on. -/
def founderGo : List Highlight → Int → List String → Int × List String
  | [], score, seen => (score, seen)
  | h :: rest, score, seen =>
    let category := h.category
    if seen.contains category then founderGo rest score seen
    else
      let weight := highlightWeight category
      if 0 < weight then founderGo rest (score + weight) (seen ++ [category])
      else founderGo rest score seen

/-- `compute_founder_score(company)` from find_raising_startups.py. -/
def compute_founder_score (c : Company) : Int × List String :=
  founderGo (c.employee_highlights ++ c.highlights) 0 []

end FindRaising

namespace Lemlist

/-! ### add_to_lemlist.py: row filtering before the outreach push -/

/-- A spreadsheet row, reduced to the three columns read by `main`. -/
structure Row where
  companyName : String
  firstName : String
  email : String
deriving DecidableEq

/-- A lead as pushed to `add_lead_to_campaign`. -/
structure Lead where
  email : String
  firstName : String
  companyName : String
deriving DecidableEq

/-- `row[col[h]].strip() if h in col else ""`: a cell is read only when
its column header exists, and is stripped. -/
def cell (hasCol : Bool) (raw : String) : String :=
  if hasCol then String.mk (pyStrip raw.data) else ""

/-- The per-row filter of `main` in add_to_lemlist.py: rows with an empty
(trimmed) company are skipped first, then rows with an empty (trimmed)
email. -/
def rowToLead (hasCompanyCol hasEmailCol hasFirstNameCol : Bool) (row : Row) :
    Option Lead :=
  if cell hasCompanyCol row.companyName = "" then none
  else if cell hasEmailCol row.email = "" then none
  else some { email := cell hasEmailCol row.email,
              firstName := cell hasFirstNameCol row.firstName,
              companyName := cell hasCompanyCol row.companyName }

/-- The list of leads subsequently pushed one by one to the Lemlist
campaign (the push loop of `main` iterates over exactly this list). -/
def leadsToPush (hasCompanyCol hasEmailCol hasFirstNameCol : Bool)
    (rows : List Row) : List Lead :=
  rows.filterMap (rowToLead hasCompanyCol hasEmailCol hasFirstNameCol)

end Lemlist

/-! ### Invariants of normalized output (used to settle idempotence) -/

/-- A character that can appear in the output of `normalizeChars`:
a space, a lower-case letter, or a digit. -/
def goodChar (c : Char) : Prop :=
  c = ' ' ∨ ('a' ≤ c ∧ c ≤ 'z') ∨ ('0' ≤ c ∧ c ≤ '9')

/-- Adjacent characters are never both whitespace. -/
def noTwoWs (a b : Char) : Prop :=
  ¬(pyIsSpace a = true ∧ pyIsSpace b = true)

/-! ### Concrete inputs used by counterexamples and witnesses -/

/-- A fuzzy-search oracle with one domain-matching organization. -/
def fetchAcme : String → Option (List Org) :=
  fun t => if t = "acme.io" then some [⟨1, "Acme Inc", "acme.io"⟩] else none

/-- A fuzzy-search oracle returning one organization that never matches
the query "Acme" by normalized name. -/
def fetchMismatch : String → Option (List Org) :=
  fun _ => some [⟨7, "Initech", "initech.com"⟩]

/-- The person record of the spec's founder-score scenario: highlights
`["Prior Exit", "Prior Exit", "Top University"]`, no experience or
education records. -/
def cexPerson : FindTop.Person :=
  ⟨[], [], [⟨"Prior Exit"⟩, ⟨"Prior Exit"⟩, ⟨"Top University"⟩]⟩

/-- A company record whose combined highlight categories are
`["Prior Exit", "Prior Exit", "Top University"]`. -/
def cexFRCompany : FindRaising.Company :=
  ⟨none, none, none, none, none, 0, 1,
   [⟨"Prior Exit"⟩, ⟨"Prior Exit"⟩, ⟨"Top University"⟩], [], none⟩

/-- Five consecutive 429 responses with no `Retry-After` header. -/
def fiveRateLimits : List (HttpResp Nat) :=
  List.replicate 5 ⟨429, none, 0⟩

/-- A company with no metrics at all. -/
def cexFTCompany : FindTop.Company :=
  ⟨none, none, none, none, [], none, 0, 1, none⟩

/-- Spreadsheet rows exercising the lead filter: one valid row, one with
an empty company name, one with a whitespace-only email. -/
def cexRows : List Lemlist.Row :=
  [⟨" Acme ", "Jo", " a@b.c "⟩, ⟨"", "x", "e@f.g"⟩, ⟨"NoMail", "y", " "⟩]

/-! ### Claim theorems -/

/-- C2: when `search_org` is given both a name and a truthy domain and the
domain-based fuzzy search contains a result whose domain field,
lower-cased and trimmed, equals the lower-cased input domain, the first
such organization is returned and the only query issued is the domain
query — the name-based path is never consulted. -/
theorem search_org_prefers_domain_match
    (fetch : String → Option (List Org)) (name d : String) (org : Org)
    (hd : d ≠ "")
    (hfind : ((fetch d).getD []).find? (domainMatches d) = some org) :
    search_org fetch name (some d) = (some org, [d]) ∧
    domainMatches d org = true := by
  constructor
  · unfold search_org
    simp only [if_neg hd, hfind]
  · exact List.find?_some hfind

/-- C2 witness: a concrete oracle with an exact domain hit. -/
theorem search_org_prefers_domain_match_witness :
    search_org fetchAcme "Acme" (some "acme.io") =
      (some ⟨1, "Acme Inc", "acme.io"⟩, ["acme.io"]) :=
  (search_org_prefers_domain_match fetchAcme "Acme" "acme.io"
    ⟨1, "Acme Inc", "acme.io"⟩ (by decide) (by decide)).1

/-- C1: without a domain (or when the domain path finds no exact hit),
`search_org` returns an organization only when its normalized name equals
the normalized query, and returns `None` whenever the name-based search
results contain no such organization; `search_org_by_name` from
push_and_check.py behaves the same way under its own normalizer. -/
theorem search_org_exact_name_only
    (fetch : String → Option (List Org)) (name : String) :
    (∀ org, (search_org fetch name none).1 = some org →
      normalize_name org.name = normalize_name name) ∧
    (∀ d org, ((fetch d).getD []).find? (domainMatches d) = none →
      (search_org fetch name (some d)).1 = some org →
      normalize_name org.name = normalize_name name) ∧
    ((∀ org ∈ (fetch name).getD [],
        normalize_name org.name ≠ normalize_name name) →
      (search_org fetch name none).1 = none ∧
      ∀ d, ((fetch d).getD []).find? (domainMatches d) = none →
        (search_org fetch name (some d)).1 = none) ∧
    (∀ fetchL : String → List Org,
      (∀ org, search_org_by_name fetchL name = some org →
        pc_normalize_name org.name = pc_normalize_name name) ∧
      ((∀ org ∈ fetchL name,
          pc_normalize_name org.name ≠ pc_normalize_name name) →
        search_org_by_name fetchL name = none)) := by
  have hname : ∀ org, namePathResult fetch name = some org →
      normalize_name org.name = normalize_name name := by
    intro org h
    unfold namePathResult at h
    by_cases hn : name = ""
    · simp [hn] at h
    · rw [if_neg hn] at h
      have := List.find?_some h
      exact eq_of_beq this
  have hnone : (∀ org ∈ (fetch name).getD [],
      normalize_name org.name ≠ normalize_name name) →
      namePathResult fetch name = none := by
    intro h
    unfold namePathResult
    by_cases hn : name = ""
    · simp [hn]
    · rw [if_neg hn]
      rw [List.find?_eq_none]
      intro org hmem
      simp only [beq_iff_eq]
      exact h org hmem
  refine ⟨?_, ?_, ?_, ?_⟩
  · intro org h
    apply hname
    exact h
  · intro d org hd h
    apply hname
    simp only [search_org] at h
    by_cases hde : d = ""
    · rw [if_pos hde] at h
      exact h
    · rw [if_neg hde, hd] at h
      exact h
  · intro h
    refine ⟨?_, ?_⟩
    · exact hnone h
    · intro d hd
      simp only [search_org]
      by_cases hde : d = ""
      · rw [if_pos hde]
        exact hnone h
      · rw [if_neg hde, hd]
        exact hnone h
  · intro fetchL
    constructor
    · intro org h
      unfold search_org_by_name at h
      by_cases hn : name = ""
      · simp [hn] at h
      · rw [if_neg hn] at h
        have hb := List.find?_some h
        exact eq_of_beq hb
    · intro h
      unfold search_org_by_name
      by_cases hn : name = ""
      · simp [hn]
      · rw [if_neg hn, List.find?_eq_none]
        intro org hmem
        simp only [beq_iff_eq]
        exact h org hmem

/-- C1 witness: a fuzzy result list with no exact normalized-name match
yields `None` on the no-domain path. -/
theorem search_org_exact_name_only_witness :
    (search_org fetchMismatch "Acme" none).1 = none :=
  (((search_org_exact_name_only fetchMismatch "Acme").2.2.1 (by decide))).1

/-- C7: `has_any_interaction` checks the target list first, then the
presence of notes (with the note count in the reason), then membership on
any other list, and otherwise returns `(False, "")`. -/
theorem has_any_interaction_priority
    (tid : Int) (entries : List ListEntry) (notes : Option (List Note)) :
    (entries.any (fun e => e.list_id == tid) = true →
      has_any_interaction tid (some entries) notes =
        (true, "On 1a Sourcing List")) ∧
    (entries.any (fun e => e.list_id == tid) = false →
      ∀ note_list, notes = some note_list → note_list ≠ [] →
        has_any_interaction tid (some entries) notes =
          (true, toString note_list.length ++ " notes")) ∧
    (entries.any (fun e => e.list_id == tid) = false →
      (notes = none ∨ notes = some []) → entries ≠ [] →
        has_any_interaction tid (some entries) notes =
          (true, "On other Affinity list")) ∧
    (entries.any (fun e => e.list_id == tid) = false →
      (notes = none ∨ notes = some []) → entries = [] →
        has_any_interaction tid (some entries) notes = (false, "")) := by
  refine ⟨?_, ?_, ?_, ?_⟩
  · intro h
    unfold has_any_interaction
    simp [h]
  · intro h note_list hn hne
    unfold has_any_interaction
    subst hn
    simp [h, List.isEmpty_iff, hne]
  · intro h hn hne
    unfold has_any_interaction
    rcases hn with hn | hn <;> subst hn <;>
      simp [h, List.isEmpty_iff, hne]
  · intro h hn hne
    unfold has_any_interaction
    subst hne
    rcases hn with hn | hn <;> subst hn <;> simp [h]

/-- C7 witness: an organization on the target list is reported with the
target-list reason. -/
theorem has_any_interaction_priority_witness :
    has_any_interaction 21233 (some [⟨21233⟩]) none =
      (true, "On 1a Sourcing List") :=
  (has_any_interaction_priority 21233 [⟨21233⟩] none).1 (by decide)

/-- Helper: sleeps of the recursive client are the `Retry-After` values
(default 5) of the leading 429 responses, and every request issued uses
the original endpoint and params. -/
theorem affinity_get_spec {α : Type} (endpoint : String)
    (params : List (String × String)) :
    ∀ resps : List (HttpResp α),
      (affinity_get endpoint params resps).2.1 =
        (resps.takeWhile (fun r => r.status == 429)).map
          (fun r => r.retryAfter.getD 5) ∧
      ∀ q ∈ (affinity_get endpoint params resps).2.2, q = (endpoint, params)
  | [] => ⟨rfl, by simp [affinity_get]⟩
  | r :: rest => by
    have ih := affinity_get_spec endpoint params rest
    by_cases h : r.status = 429
    · constructor
      · simp [affinity_get, h, List.takeWhile_cons, ih.1]
      · intro q hq
        simp only [affinity_get, if_pos h, List.mem_cons] at hq
        rcases hq with hq | hq
        · exact hq
        · exact ih.2 q hq
    · constructor
      · by_cases h2 : r.status = 200 <;>
          simp [affinity_get, h, h2, List.takeWhile_cons]
      · intro q hq
        by_cases h2 : r.status = 200 <;>
          simp [affinity_get, h, h2] at hq <;> exact hq

/-- Helper: the bounded client of find_raising_later.py sleeps for the
`Retry-After` values (default 2) of the leading 429 responses among its
at most `n` attempts, and issues only the original request. -/
theorem rl_affinity_go_spec {α : Type} (endpoint : String)
    (params : List (String × String)) :
    ∀ (n : Nat) (resps : List (HttpResp α)),
      (rl_affinity_go endpoint params n resps).2.1 =
        ((resps.take n).takeWhile (fun r => r.status == 429)).map
          (fun r => r.retryAfter.getD 2) ∧
      ∀ q ∈ (rl_affinity_go endpoint params n resps).2.2, q = (endpoint, params)
  | 0, resps => ⟨by simp [rl_affinity_go], by simp [rl_affinity_go]⟩
  | n + 1, [] => ⟨by simp [rl_affinity_go], by simp [rl_affinity_go]⟩
  | n + 1, r :: rest => by
    have ih := rl_affinity_go_spec endpoint params n rest
    by_cases h : r.status = 429
    · constructor
      · simp [rl_affinity_go, h, List.takeWhile_cons, ih.1]
      · intro q hq
        simp only [rl_affinity_go, if_pos h, List.mem_cons] at hq
        rcases hq with hq | hq
        · exact hq
        · exact ih.2 q hq
    · constructor
      · by_cases h2 : r.status = 200 <;>
          simp [rl_affinity_go, h, h2, List.takeWhile_cons]
      · intro q hq
        by_cases h2 : r.status = 200 <;>
          simp [rl_affinity_go, h, h2] at hq <;> exact hq

/-- Helper: when the first `n` responses are all 429 and at least `n`
responses exist, the bounded client gives up and returns `None`. -/
theorem rl_affinity_go_exhaust {α : Type} (endpoint : String)
    (params : List (String × String)) :
    ∀ (n : Nat) (resps : List (HttpResp α)),
      (∀ r ∈ resps.take n, r.status = 429) → n ≤ resps.length →
      (rl_affinity_go endpoint params n resps).1 = none
  | 0, _, _, _ => rfl
  | n + 1, [], _, hlen => by simp at hlen
  | n + 1, r :: rest, h429, hlen => by
    have hr : r.status = 429 := h429 r (by simp)
    have ih := rl_affinity_go_exhaust endpoint params n rest
      (fun x hx => h429 x (by simp [hx]))
      (by simpa using hlen)
    simp [rl_affinity_go, hr, ih]

/-- C5 counterexample: for five consecutive 429 responses with the
`Retry-After` header absent, the client of find_raising_later.py sleeps
2 seconds each time — not the claimed 5 — and after the fifth 429 it
gives up with `None` instead of retrying again. -/
theorem retry_after_default_cex :
    (rl_affinity_get "/lists/21233/list-entries" [] fiveRateLimits).2.1 =
      [2, 2, 2, 2, 2] ∧
    (rl_affinity_get "/lists/21233/list-entries" [] fiveRateLimits).2.1 ≠
      [5, 5, 5, 5, 5] ∧
    (rl_affinity_get "/lists/21233/list-entries" [] fiveRateLimits).1 =
      none :=
  ⟨rfl, by decide, rfl⟩

/-- C5 amended: on each 429 the clients sleep for the literal
`Retry-After` value and retry the identical request, but the default when
the header is absent is 5 seconds only in the recursive
`AffinityClient._get` clients; `affinity_get` of find_raising_later.py
defaults to 2 seconds and stops with `None` after five 429 responses. -/
theorem retry_on_429_behavior {α : Type} (endpoint : String)
    (params : List (String × String)) (resps : List (HttpResp α)) :
    ((affinity_get endpoint params resps).2.1 =
      (resps.takeWhile (fun r => r.status == 429)).map
        (fun r => r.retryAfter.getD 5)) ∧
    (∀ q ∈ (affinity_get endpoint params resps).2.2, q = (endpoint, params)) ∧
    ((rl_affinity_get endpoint params resps).2.1 =
      ((resps.take 5).takeWhile (fun r => r.status == 429)).map
        (fun r => r.retryAfter.getD 2)) ∧
    (∀ q ∈ (rl_affinity_get endpoint params resps).2.2,
      q = (endpoint, params)) ∧
    ((∀ r ∈ resps.take 5, r.status = 429) → 5 ≤ resps.length →
      (rl_affinity_get endpoint params resps).1 = none) :=
  ⟨(affinity_get_spec endpoint params resps).1,
   (affinity_get_spec endpoint params resps).2,
   (rl_affinity_go_spec endpoint params 5 resps).1,
   (rl_affinity_go_spec endpoint params 5 resps).2,
   fun h hl => rl_affinity_go_exhaust endpoint params 5 resps h hl⟩

/-- C5 witness: the amended behavior at a concrete run of five 429s. -/
theorem retry_on_429_behavior_witness :
    (rl_affinity_get "/notes" [] fiveRateLimits).1 = none :=
  (retry_on_429_behavior "/notes" [] fiveRateLimits).2.2.2.2
    (by decide) (by decide)

/-- C8: a response whose status is non-2xx and not 429 makes both client
`get` functions return the `None` failure marker (no exception is
modelled or needed: the translation is total). -/
theorem non2xx_returns_failure_marker {α : Type} (endpoint : String)
    (params : List (String × String)) (r : HttpResp α)
    (rest : List (HttpResp α))
    (hs : r.status < 200 ∨ 300 ≤ r.status) (h429 : r.status ≠ 429) :
    (affinity_get endpoint params (r :: rest)).1 = none ∧
    (rl_affinity_get endpoint params (r :: rest)).1 = none := by
  have h200 : r.status ≠ 200 := by
    rcases hs with h | h <;> omega
  constructor
  · simp [affinity_get, h429, h200]
  · simp [rl_affinity_get, rl_affinity_go, h429, h200]

/-- C8 witness: a 404 response yields `None` from both clients. -/
theorem non2xx_returns_failure_marker_witness :
    (affinity_get "/organizations" [] [(⟨404, none, 0⟩ : HttpResp Nat)]).1 =
      none ∧
    (rl_affinity_get "/organizations" []
      [(⟨404, none, 0⟩ : HttpResp Nat)]).1 = none :=
  non2xx_returns_failure_marker "/organizations" [] ⟨404, none, 0⟩ []
    (Or.inr (by decide)) (by decide)

/-- C4 counterexample: on the spec's scenario highlights
`["Prior Exit", "Prior Exit", "Top University"]` neither founder scorer
returns 30: the person-based scorer of find_top_startups.py returns 45
and the company-based scorer of find_raising_startups.py returns 37. -/
theorem founder_score_scenario_cex :
    FindTop.compute_founder_score (some cexPerson) ≠ 30 ∧
    (FindRaising.compute_founder_score cexFRCompany).1 ≠ 30 := by
  decide

/-- C4 amended: on highlights
`["Prior Exit", "Prior Exit", "Top University"]` the person-based scorer
of find_top_startups.py scores 20 + 20 + 5 = 45, counting the duplicated
"Prior Exit" twice; the company-based scorer of find_raising_startups.py
scores 25 + 12 = 37, counting the duplicated category once. -/
theorem founder_score_scenario_amended :
    FindTop.compute_founder_score (some cexPerson) = 45 ∧
    (FindRaising.compute_founder_score cexFRCompany).1 = 37 := by
  decide

/-- C9: every lead reaching the outreach push of add_to_lemlist.py has a
non-empty trimmed company name and a non-empty trimmed email, both
obtained by trimming the cells of some spreadsheet row. -/
theorem lead_push_requires_company_and_email
    (hc he hf : Bool) (rows : List Lemlist.Row) (l : Lemlist.Lead)
    (hmem : l ∈ Lemlist.leadsToPush hc he hf rows) :
    l.companyName ≠ "" ∧ l.email ≠ "" ∧
    ∃ row ∈ rows,
      l.companyName = String.mk (pyStrip row.companyName.data) ∧
      l.email = String.mk (pyStrip row.email.data) := by
  unfold Lemlist.leadsToPush at hmem
  rw [List.mem_filterMap] at hmem
  obtain ⟨row, hrow, hsome⟩ := hmem
  unfold Lemlist.rowToLead at hsome
  by_cases h1 : Lemlist.cell hc row.companyName = ""
  · simp [h1] at hsome
  · rw [if_neg h1] at hsome
    by_cases h2 : Lemlist.cell he row.email = ""
    · simp [h2] at hsome
    · rw [if_neg h2] at hsome
      cases hc with
      | false => exact absurd rfl h1
      | true =>
        cases he with
        | false => exact absurd rfl h2
        | true =>
          cases hsome
          exact ⟨h1, h2, row, hrow, rfl, rfl⟩

/-- C9 witness: of three concrete rows, only the one with both a company
name and an email survives to the push list. -/
theorem lead_push_requires_company_and_email_witness :
    (⟨"a@b.c", "Jo", "Acme"⟩ : Lemlist.Lead).companyName ≠ "" ∧
    (⟨"a@b.c", "Jo", "Acme"⟩ : Lemlist.Lead).email ≠ "" ∧
    ∃ row ∈ cexRows,
      (⟨"a@b.c", "Jo", "Acme"⟩ : Lemlist.Lead).companyName =
        String.mk (pyStrip row.companyName.data) ∧
      (⟨"a@b.c", "Jo", "Acme"⟩ : Lemlist.Lead).email =
        String.mk (pyStrip row.email.data) :=
  lead_push_requires_company_and_email true true true cexRows
    ⟨"a@b.c", "Jo", "Acme"⟩ (by decide)

/-- Helper: the capped multiplicative factor is monotone. -/
theorem positiveCappedMul_mono (mul cap : ℚ) (hm : 0 ≤ mul) (hcap : 0 ≤ cap)
    {x y : ℚ} (h : x ≤ y) :
    positiveCappedMul mul cap (some x) ≤ positiveCappedMul mul cap (some y) := by
  simp only [positiveCappedMul]
  by_cases hx : 0 < x
  · have hy : 0 < y := lt_of_lt_of_le hx h
    rw [if_pos hx, if_pos hy]
    exact min_le_min (mul_le_mul_of_nonneg_right h hm) le_rfl
  · rw [if_neg hx]
    by_cases hy : 0 < y
    · rw [if_pos hy]
      exact le_min (mul_nonneg hy.le hm) hcap
    · rw [if_neg hy]

/-- Helper: the capped divisive factor is monotone. -/
theorem positiveCappedDiv_mono (den cap : ℚ) (hd : 0 < den) (hcap : 0 ≤ cap)
    {x y : ℚ} (h : x ≤ y) :
    positiveCappedDiv den cap (some x) ≤ positiveCappedDiv den cap (some y) := by
  simp only [positiveCappedDiv]
  by_cases hx : 0 < x
  · have hy : 0 < y := lt_of_lt_of_le hx h
    rw [if_pos hx, if_pos hy]
    exact min_le_min ((div_le_div_iff_of_pos_right hd).mpr h) le_rfl
  · rw [if_neg hx]
    by_cases hy : 0 < y
    · rw [if_pos hy]
      exact le_min (div_nonneg hy.le hd.le) hcap
    · rw [if_neg hy]

/-- Helper: the capped multiplicative factor never exceeds its cap. -/
theorem positiveCappedMul_le (mul cap : ℚ) (hcap : 0 ≤ cap) :
    ∀ v : Option ℚ, positiveCappedMul mul cap v ≤ cap
  | some x => by
    simp only [positiveCappedMul]
    by_cases hx : 0 < x
    · rw [if_pos hx]
      exact min_le_right _ _
    · rw [if_neg hx]
      exact hcap
  | none => hcap

/-- Helper: the capped divisive factor never exceeds its cap. -/
theorem positiveCappedDiv_le (den cap : ℚ) (hcap : 0 ≤ cap) :
    ∀ v : Option ℚ, positiveCappedDiv den cap v ≤ cap
  | some x => by
    simp only [positiveCappedDiv]
    by_cases hx : 0 < x
    · rw [if_pos hx]
      exact min_le_right _ _
    · rw [if_neg hx]
      exact hcap
  | none => hcap

/-- C6: both raise-likelihood scorers are monotone non-decreasing in each
positive input signal (180-day and 90-day headcount change, web-traffic
percent change, LinkedIn percent change, highlight count), every capped
factor is bounded by its stated cap, and a 90-day headcount change of
1000 contributes exactly its 25-point cap. -/
theorem raise_scores_monotone_and_capped :
    (∀ (c : FindTop.Company) (x y : ℚ), x ≤ y →
      FindTop.compute_raise_score { c with hc_change_180 := some x } ≤
      FindTop.compute_raise_score { c with hc_change_180 := some y }) ∧
    (∀ (c : FindTop.Company) (x y : ℚ), x ≤ y →
      FindTop.compute_raise_score { c with hc_change_90 := some x } ≤
      FindTop.compute_raise_score { c with hc_change_90 := some y }) ∧
    (∀ (c : FindTop.Company) (x y : ℚ), x ≤ y →
      FindTop.compute_raise_score { c with wt_pct_180 := some x } ≤
      FindTop.compute_raise_score { c with wt_pct_180 := some y }) ∧
    (∀ (c : FindTop.Company) (x y : ℚ), x ≤ y →
      FindTop.compute_raise_score { c with li_pct_180 := some x } ≤
      FindTop.compute_raise_score { c with li_pct_180 := some y }) ∧
    (∀ (c : FindTop.Company) (hs ht : List Highlight), hs.length ≤ ht.length →
      FindTop.compute_raise_score { c with highlights := hs } ≤
      FindTop.compute_raise_score { c with highlights := ht }) ∧
    (∀ (c : FindRaising.Company) (x y : ℚ), x ≤ y →
      FindRaising.compute_raising_score { c with hc_change_90 := some x } ≤
      FindRaising.compute_raising_score { c with hc_change_90 := some y }) ∧
    (∀ (c : FindRaising.Company) (x y : ℚ), x ≤ y →
      FindRaising.compute_raising_score { c with hc_change_180 := some x } ≤
      FindRaising.compute_raising_score { c with hc_change_180 := some y }) ∧
    (∀ (c : FindRaising.Company) (x y : ℚ), x ≤ y →
      FindRaising.compute_raising_score { c with wt_pct_180 := some x } ≤
      FindRaising.compute_raising_score { c with wt_pct_180 := some y }) ∧
    (∀ (c : FindRaising.Company) (x y : ℚ), x ≤ y →
      FindRaising.compute_raising_score { c with li_pct_180 := some x } ≤
      FindRaising.compute_raising_score { c with li_pct_180 := some y }) ∧
    (∀ (c : FindRaising.Company) (hs ht : List Highlight),
      hs.length ≤ ht.length →
      FindRaising.compute_raising_score { c with highlights := hs } ≤
      FindRaising.compute_raising_score { c with highlights := ht }) ∧
    (∀ v, positiveCappedMul 5 25 v ≤ 25) ∧
    (∀ v, positiveCappedMul 8 25 v ≤ 25) ∧
    (∀ v, positiveCappedMul 4 15 v ≤ 15) ∧
    (∀ v, positiveCappedDiv 10 20 v ≤ 20) ∧
    (∀ v, positiveCappedDiv 5 15 v ≤ 15) ∧
    (∀ hs : List Highlight, min ((hs.length : ℚ) * 3) 15 ≤ 15) ∧
    (∀ hs : List Highlight, min ((hs.length : ℚ) * 2) 10 ≤ 10) ∧
    positiveCappedMul 8 25 (some 1000) = 25 := by
  have hlen : ∀ (mulc cap : ℚ), 0 ≤ mulc → ∀ (hs ht : List Highlight),
      hs.length ≤ ht.length →
      min ((hs.length : ℚ) * mulc) cap ≤ min ((ht.length : ℚ) * mulc) cap := by
    intro mulc cap hm hs ht h
    refine min_le_min (mul_le_mul_of_nonneg_right ?_ hm) le_rfl
    exact_mod_cast h
  refine ⟨?_, ?_, ?_, ?_, ?_, ?_, ?_, ?_, ?_, ?_, ?_, ?_, ?_, ?_, ?_, ?_, ?_, ?_⟩
  · intro c x y h
    dsimp only [FindTop.compute_raise_score]
    have := positiveCappedMul_mono 5 25 (by norm_num) (by norm_num) h
    linarith
  · intro c x y h
    dsimp only [FindTop.compute_raise_score]
    have := positiveCappedMul_mono 8 25 (by norm_num) (by norm_num) h
    linarith
  · intro c x y h
    dsimp only [FindTop.compute_raise_score]
    have := positiveCappedDiv_mono 10 20 (by norm_num) (by norm_num) h
    linarith
  · intro c x y h
    dsimp only [FindTop.compute_raise_score]
    have := positiveCappedDiv_mono 5 15 (by norm_num) (by norm_num) h
    linarith
  · intro c hs ht h
    dsimp only [FindTop.compute_raise_score]
    have := hlen 3 15 (by norm_num) hs ht h
    linarith
  · intro c x y h
    dsimp only [FindRaising.compute_raising_score]
    have := positiveCappedMul_mono 8 25 (by norm_num) (by norm_num) h
    linarith
  · intro c x y h
    dsimp only [FindRaising.compute_raising_score]
    have := positiveCappedMul_mono 4 15 (by norm_num) (by norm_num) h
    linarith
  · intro c x y h
    dsimp only [FindRaising.compute_raising_score]
    have := positiveCappedDiv_mono 10 20 (by norm_num) (by norm_num) h
    linarith
  · intro c x y h
    dsimp only [FindRaising.compute_raising_score]
    have := positiveCappedDiv_mono 5 15 (by norm_num) (by norm_num) h
    linarith
  · intro c hs ht h
    dsimp only [FindRaising.compute_raising_score]
    have := hlen 2 10 (by norm_num) hs ht h
    linarith
  · exact positiveCappedMul_le 5 25 (by norm_num)
  · exact positiveCappedMul_le 8 25 (by norm_num)
  · exact positiveCappedMul_le 4 15 (by norm_num)
  · exact positiveCappedDiv_le 10 20 (by norm_num)
  · exact positiveCappedDiv_le 5 15 (by norm_num)
  · intro hs
    exact min_le_right _ _
  · intro hs
    exact min_le_right _ _
  · simp only [positiveCappedMul]
    rw [if_pos (by norm_num : (0:ℚ) < 1000)]
    rw [min_eq_right (by norm_num : (25:ℚ) ≤ 1000 * 8)]

/-- C6 witness: monotonicity and the exact 90-day cap at concrete inputs. -/
theorem raise_scores_monotone_and_capped_witness :
    FindTop.compute_raise_score { cexFTCompany with hc_change_90 := some 1 } ≤
    FindTop.compute_raise_score
      { cexFTCompany with hc_change_90 := some 1000 } :=
  raise_scores_monotone_and_capped.2.1 cexFTCompany 1 1000 (by decide)

/-- C10: a failed organization-detail fetch makes `has_any_interaction`
return `(False, "")`, the same value it returns for an organization with
no list memberships and no notes, so the two cases are indistinguishable
to the caller. -/
theorem failed_detail_indistinguishable_from_clean
    (tid : Int) (notes : Option (List Note)) :
    has_any_interaction tid none notes = (false, "") ∧
    has_any_interaction tid (some []) none = (false, "") ∧
    has_any_interaction tid (some []) (some []) = (false, "") ∧
    has_any_interaction tid none notes =
      has_any_interaction tid (some []) none := by
  exact ⟨rfl, rfl, rfl, rfl⟩

/-! ### Lemmas about the normalization pipeline, leading to C3 -/

/-- Characters in the collapsed string are a space or a non-whitespace
character of the input. -/
theorem mem_collapseWsAux :
    ∀ (l : List Char) (b : Bool) (c : Char), c ∈ collapseWsAux b l →
      c = ' ' ∨ (c ∈ l ∧ pyIsSpace c = false)
  | [], b, c, h => by cases h
  | c0 :: t, b, c, h => by
    by_cases hsp : pyIsSpace c0 = true
    · cases b with
      | true =>
        rw [collapseWsAux, if_pos hsp] at h
        rcases mem_collapseWsAux t true c h with h1 | ⟨h1, h2⟩
        · exact Or.inl h1
        · exact Or.inr ⟨List.mem_cons_of_mem _ h1, h2⟩
      | false =>
        rw [collapseWsAux, if_pos hsp] at h
        rcases List.mem_cons.mp h with h1 | h1
        · exact Or.inl h1
        · rcases mem_collapseWsAux t true c h1 with h2 | ⟨h2, h3⟩
          · exact Or.inl h2
          · exact Or.inr ⟨List.mem_cons_of_mem _ h2, h3⟩
    · rw [collapseWsAux, if_neg hsp] at h
      rcases List.mem_cons.mp h with h1 | h1
      · subst h1
        exact Or.inr ⟨List.mem_cons_self _ _, by simpa using hsp⟩
      · rcases mem_collapseWsAux t false c h1 with h2 | ⟨h2, h3⟩
        · exact Or.inl h2
        · exact Or.inr ⟨List.mem_cons_of_mem _ h2, h3⟩

/-- Stripping only removes characters. -/
theorem mem_pyStrip {c : Char} {l : List Char} (h : c ∈ pyStrip l) : c ∈ l := by
  unfold pyStrip dropTrailingWs at h
  rw [List.mem_reverse] at h
  have h2 := List.dropWhile_subset pyIsSpace h
  rw [List.mem_reverse] at h2
  exact List.dropWhile_subset pyIsSpace h2

/-- Every character of a normalized name is a space, letter or digit. -/
theorem goodChar_mem_normalizeChars {c : Char} {l : List Char}
    (h : c ∈ normalizeChars l) : goodChar c := by
  unfold normalizeChars at h
  have h1 := mem_pyStrip h
  rcases mem_collapseWsAux _ false c h1 with h2 | ⟨h2, h3⟩
  · exact Or.inl h2
  · unfold keepAllowed at h2
    have h4 := (List.mem_filter.mp h2).2
    unfold allowedChar at h4
    rw [h3] at h4
    simp only [Bool.or_false, Bool.or_eq_true, decide_eq_true_eq] at h4
    exact Or.inr h4

/-- Lower-casing fixes spaces, lower-case letters and digits. -/
theorem pyLowerChar_eq_self {c : Char} (h : goodChar c) : pyLowerChar c = c := by
  unfold pyLowerChar
  rw [if_neg]
  rintro ⟨hA, hZ⟩
  rcases h with rfl | ⟨h1, _⟩ | ⟨_, h2⟩
  · exact absurd hA (by decide)
  · exact absurd (le_trans h1 hZ) (by decide)
  · exact absurd (le_trans hA h2) (by decide)

/-- Lower-casing fixes strings of good characters. -/
theorem pyLower_eq_self : ∀ {l : List Char}, (∀ c ∈ l, goodChar c) →
    pyLower l = l
  | [], _ => rfl
  | c :: t, h => by
    unfold pyLower
    rw [List.map_cons]
    rw [pyLowerChar_eq_self (h c (List.mem_cons_self _ _))]
    have := pyLower_eq_self (fun d hd => h d (List.mem_cons_of_mem _ hd))
    unfold pyLower at this
    rw [this]

/-- A good character that is whitespace is the plain space. -/
theorem space_of_goodChar {c : Char} (hg : goodChar c)
    (hs : pyIsSpace c = true) : c = ' ' := by
  rcases hg with rfl | ⟨h1, _⟩ | ⟨h1, _⟩
  · rfl
  · exfalso
    simp only [pyIsSpace, Bool.or_eq_true, beq_iff_eq] at hs
    rcases hs with ((((rfl | rfl) | rfl) | rfl) | rfl) | rfl <;>
      exact absurd h1 (by decide)
  · exfalso
    simp only [pyIsSpace, Bool.or_eq_true, beq_iff_eq] at hs
    rcases hs with ((((rfl | rfl) | rfl) | rfl) | rfl) | rfl <;>
      exact absurd h1 (by decide)

/-- Good characters are kept by the punctuation filter. -/
theorem allowedChar_of_goodChar {c : Char} (h : goodChar c) :
    allowedChar c = true := by
  rcases h with rfl | h | h
  · decide
  · have hd : decide ('a' ≤ c ∧ c ≤ 'z') = true := decide_eq_true h
    simp [allowedChar, hd]
  · have hd : decide ('0' ≤ c ∧ c ≤ '9') = true := decide_eq_true h
    simp [allowedChar, hd]

/-- Dropping a satisfied prefix twice equals dropping it once. -/
theorem dropWhile_twice {α : Type} (p : α → Bool) :
    ∀ l : List α, (l.dropWhile p).dropWhile p = l.dropWhile p
  | [] => rfl
  | c :: t => by
    by_cases h : p c
    · rw [List.dropWhile_cons_of_pos h]
      exact dropWhile_twice p t
    · rw [List.dropWhile_cons_of_neg h, List.dropWhile_cons_of_neg h]

/-- The head surviving `dropWhile` fails the predicate. -/
theorem head_dropWhile_false {α : Type} (p : α → Bool) :
    ∀ {l : List α} {c : α}, (l.dropWhile p).head? = some c → p c = false
  | [], c, h => by cases h
  | a :: t, c, h => by
    by_cases ha : p a
    · rw [List.dropWhile_cons_of_pos ha] at h
      exact head_dropWhile_false p h
    · rw [List.dropWhile_cons_of_neg ha] at h
      cases h
      simpa using ha

/-- `dropTrailingWs l` is a prefix of `l`. -/
theorem dropTrailing_append (l : List Char) :
    dropTrailingWs l ++ (l.reverse.takeWhile pyIsSpace).reverse = l :=
  calc dropTrailingWs l ++ (l.reverse.takeWhile pyIsSpace).reverse
      = ((l.reverse.takeWhile pyIsSpace) ++
          (l.reverse.dropWhile pyIsSpace)).reverse :=
        (List.reverse_append _ _).symm
    _ = (l.reverse).reverse := by rw [List.takeWhile_append_dropWhile]
    _ = l := List.reverse_reverse l

/-- A nonempty trailing-stripped list has the head of the original. -/
theorem head_dropTrailing {l : List Char} {c : Char}
    (h : (dropTrailingWs l).head? = some c) : l.head? = some c := by
  have happ := dropTrailing_append l
  cases hd : dropTrailingWs l with
  | nil => rw [hd] at h; cases h
  | cons a u =>
    rw [hd] at h happ
    cases h
    rw [← happ]
    rfl

/-- `dropWhile` is the identity when the head fails the predicate. -/
theorem dropWhile_eq_self_of_head {α : Type} (p : α → Bool) :
    ∀ {l : List α}, (∀ c, l.head? = some c → p c = false) →
      l.dropWhile p = l
  | [], _ => rfl
  | a :: t, h => by
    have ha : p a = false := h a rfl
    rw [List.dropWhile_cons_of_neg (by simp [ha])]

/-- Stripping trailing whitespace twice equals doing it once. -/
theorem dropTrailing_twice (l : List Char) :
    dropTrailingWs (dropTrailingWs l) = dropTrailingWs l := by
  unfold dropTrailingWs
  rw [List.reverse_reverse, dropWhile_twice]

/-- Python `strip` is idempotent. -/
theorem pyStrip_idem (l : List Char) : pyStrip (pyStrip l) = pyStrip l := by
  unfold pyStrip
  rw [dropWhile_eq_self_of_head pyIsSpace
    (fun c hc => head_dropWhile_false pyIsSpace (head_dropTrailing hc))]
  exact dropTrailing_twice _

/-- The head produced by an in-run collapse is never whitespace. -/
theorem head_collapseWsAux_true :
    ∀ {l : List Char} {c : Char},
      (collapseWsAux true l).head? = some c → pyIsSpace c = false
  | [], c, h => by cases h
  | c0 :: t, c, h => by
    by_cases hsp : pyIsSpace c0 = true
    · rw [collapseWsAux, if_pos hsp] at h
      exact head_collapseWsAux_true h
    · rw [collapseWsAux, if_neg hsp] at h
      cases h
      simpa using hsp

/-- Collapsed output never contains two adjacent whitespace characters. -/
theorem chain_collapseWsAux :
    ∀ (l : List Char) (b : Bool), List.Chain' noTwoWs (collapseWsAux b l)
  | [], _ => List.chain'_nil
  | c0 :: t, b => by
    by_cases hsp : pyIsSpace c0 = true
    · cases b with
      | true =>
        rw [collapseWsAux, if_pos hsp]
        exact chain_collapseWsAux t true
      | false =>
        rw [collapseWsAux, if_pos hsp]
        show List.Chain' noTwoWs (' ' :: collapseWsAux true t)
        rw [List.chain'_cons']
        refine ⟨?_, chain_collapseWsAux t true⟩
        intro y hy
        intro hcon
        rw [head_collapseWsAux_true hy] at hcon
        exact absurd hcon.2 (by simp)
    · rw [collapseWsAux, if_neg hsp]
      rw [List.chain'_cons']
      refine ⟨?_, chain_collapseWsAux t false⟩
      intro y _
      intro hcon
      exact hsp hcon.1

/-- `noTwoWs` survives `dropWhile`. -/
theorem chain_dropWhile {l : List Char}
    (h : List.Chain' noTwoWs l) :
    List.Chain' noTwoWs (l.dropWhile pyIsSpace) := by
  have h2 : List.Chain' noTwoWs
      (l.takeWhile pyIsSpace ++ l.dropWhile pyIsSpace) := by
    rwa [List.takeWhile_append_dropWhile]
  exact (List.chain'_append.mp h2).2.1

/-- `noTwoWs` survives reversal (it is symmetric). -/
theorem chain_reverse_noTwoWs {l : List Char}
    (h : List.Chain' noTwoWs l) : List.Chain' noTwoWs l.reverse := by
  rw [List.chain'_reverse]
  exact h.imp (fun a b hab ⟨x, y⟩ => hab ⟨y, x⟩)

/-- `noTwoWs` survives stripping. -/
theorem chain_pyStrip {l : List Char}
    (h : List.Chain' noTwoWs l) : List.Chain' noTwoWs (pyStrip l) := by
  unfold pyStrip dropTrailingWs
  exact chain_reverse_noTwoWs (chain_dropWhile (chain_reverse_noTwoWs
    (chain_dropWhile h)))

/-- Collapsing is the identity on strings whose whitespace is all plain
spaces with no two adjacent. -/
theorem collapse_eq_self :
    ∀ l : List Char, (∀ c ∈ l, pyIsSpace c = true → c = ' ') →
      List.Chain' noTwoWs l →
      collapseWsAux false l = l ∧
        ((∀ c, l.head? = some c → pyIsSpace c = false) →
          collapseWsAux true l = l)
  | [], _, _ => ⟨rfl, fun _ => rfl⟩
  | c0 :: t, hmem, hchain => by
    have hct := List.chain'_cons'.mp hchain
    have ihmem : ∀ c ∈ t, pyIsSpace c = true → c = ' ' :=
      fun c hc => hmem c (List.mem_cons_of_mem _ hc)
    have ih := collapse_eq_self t ihmem hct.2
    by_cases hsp : pyIsSpace c0 = true
    · have hc0 : c0 = ' ' := hmem c0 (List.mem_cons_self _ _) hsp
      have hheadt : ∀ c, t.head? = some c → pyIsSpace c = false := by
        intro c hc
        by_contra hcs
        exact hct.1 c hc ⟨hsp, by simpa using hcs⟩
      constructor
      · rw [collapseWsAux, if_pos hsp]
        show (' ' :: collapseWsAux true t) = c0 :: t
        rw [hc0, ih.2 hheadt]
      · intro hhead
        exact absurd (hhead c0 rfl) (by simp [hsp])
    · constructor
      · rw [collapseWsAux, if_neg hsp, ih.1]
      · intro _
        rw [collapseWsAux, if_neg hsp, ih.1]

/-- Normalizing is idempotent on any input whose normalized form does not
itself end in a removable legal suffix. -/
theorem normalizeChars_idem (l : List Char)
    (h : stripLegalSuffix (normalizeChars l) = normalizeChars l) :
    normalizeChars (normalizeChars l) = normalizeChars l := by
  have hgood : ∀ c ∈ normalizeChars l, goodChar c :=
    fun c hc => goodChar_mem_normalizeChars hc
  have hlow : pyLower (normalizeChars l) = normalizeChars l :=
    pyLower_eq_self hgood
  have hstrip : pyStrip (normalizeChars l) = normalizeChars l := by
    simp only [normalizeChars]
    exact pyStrip_idem _
  have hkeep : keepAllowed (normalizeChars l) = normalizeChars l :=
    List.filter_eq_self.mpr
      (fun c hc => allowedChar_of_goodChar (hgood c hc))
  have hchain : List.Chain' noTwoWs (normalizeChars l) := by
    simp only [normalizeChars]
    exact chain_pyStrip (chain_collapseWsAux _ false)
  have hcol : collapseWs (normalizeChars l) = normalizeChars l :=
    (collapse_eq_self (normalizeChars l)
      (fun c hc hs => space_of_goodChar (hgood c hc) hs) hchain).1
  conv_lhs => rw [normalizeChars]
  rw [hlow, hstrip, h, hkeep, hcol, hstrip]

/-- C3 counterexample: both normalizers fail idempotence at
`"acme co inc"`: one application yields `"acme co"`, a second application
strips the now-trailing `" co"` and yields `"acme"`. -/
theorem normalize_name_not_idempotent_cex :
    normalize_name (normalize_name "acme co inc") ≠
      normalize_name "acme co inc" ∧
    pc_normalize_name (pc_normalize_name "acme co inc") ≠
      pc_normalize_name "acme co inc" := by
  decide

/-- C3 amended: `normalize_name` is idempotent on every string whose
normalized form does not itself end in a whitespace-separated legal
suffix token (equivalently, on which the suffix-stripping step is the
identity); it is not idempotent in general. -/
theorem normalize_name_idem_of_no_trailing_suffix (s : String)
    (h : stripLegalSuffix (normalize_name s).data = (normalize_name s).data) :
    normalize_name (normalize_name s) = normalize_name s := by
  by_cases hs : s = ""
  · subst hs
    rfl
  · have hdata : (normalize_name s).data = normalizeChars s.data := by
      simp only [normalize_name, if_neg hs]
    rw [hdata] at h
    by_cases hm : normalize_name s = ""
    · rw [hm]
      rfl
    · calc normalize_name (normalize_name s)
          = String.mk (normalizeChars (normalize_name s).data) := by
            conv_lhs => rw [normalize_name]
            rw [if_neg hm]
        _ = String.mk (normalizeChars (normalizeChars s.data)) := by
            rw [hdata]
        _ = String.mk (normalizeChars s.data) := by
            rw [normalizeChars_idem _ h]
        _ = normalize_name s := by
            simp only [normalize_name, if_neg hs]

/-- C3 witness: idempotence holds at `"Acme, Inc."`. -/
theorem normalize_name_idem_witness :
    normalize_name (normalize_name "Acme, Inc.") =
      normalize_name "Acme, Inc." :=
  normalize_name_idem_of_no_trailing_suffix "Acme, Inc." (by decide)

end Outsourcing
